import Mathlib

/-!
Verification development for the ctx-aggregator library: a Go package that
registers typed data collectors ("aggregators") into a context value chain,
lets code reached through that context append items, and retrieves the
accumulated items at the end of a unit of work.

The embedding is shallow:
* pure key construction (buildContextKey, strings.Join) is translated to
  Lean functions on String / List String;
* the heap of aggregator objects reachable from context values is made
  explicit (a World holding a list of aggregator objects, with context
  values mapping string keys to heap addresses), so that the copy-on-write
  semantics of context.WithValue and the sharing of aggregator pointers
  across derived contexts are both visible;
* the concurrent aggregator's interaction between the wait-group counter
  and the mutex is modelled by a small-step interleaving semantics over
  per-thread instruction lists;
* Go's panic/recover in the streaming collector callbacks is modelled by
  an explicit outcome type for the callback and an explicit recover step.
-/

namespace aggregator

/-- The fixed namespace tag: Go constant contextAggregatorContextKey. -/
def contextAggregatorContextKey : String := "ctxAggCtxKey"

/-- Go strings.Join: concatenate the elements with the separator between
consecutive elements; empty list gives the empty string. -/
def goStringsJoin (elems : List String) (sep : String) : String :=
  match elems with
  | [] => ""
  | [s] => s
  | s :: rest => s ++ sep ++ goStringsJoin rest sep

/-- Go buildContextKey: no keys yields the bare namespace tag; otherwise the
namespace tag is prepended and everything is joined with the underscore
separator. -/
def buildContextKey (keys : List String) : String :=
  if keys.length = 0 then contextAggregatorContextKey
  else goStringsJoin (contextAggregatorContextKey :: keys) "_"

/-- A string is separator-free when it does not contain the underscore
character used by buildContextKey. -/
def sepFree (s : String) : Prop := '_' ∉ s.data

instance (s : String) : Decidable (sepFree s) := by
  unfold sepFree
  infer_instance

/-- Character-list version of goStringsJoin with the underscore separator. -/
def joinData (ls : List (List Char)) : List Char :=
  match ls with
  | [] => []
  | [l] => l
  | l :: rest => l ++ '_' :: joinData rest

theorem string_data_append (s t : String) : (s ++ t).data = s.data ++ t.data := by
  cases s
  cases t
  rfl

theorem string_data_inj : Function.Injective String.data := by
  intro a b h
  cases a
  cases b
  exact congrArg String.mk h

theorem goStringsJoin_data (l : List String) :
    (goStringsJoin l "_").data = joinData (l.map String.data) := by
  induction l with
  | nil => rfl
  | cons s rest ih =>
    cases rest with
    | nil => rfl
    | cons t r =>
      show (s ++ "_" ++ goStringsJoin (t :: r) "_").data = _
      rw [string_data_append, string_data_append, ih]
      simp [joinData]

theorem sep_chain_inj (a : List Char) :
    ∀ (b : List Char) (u v : List Char),
      '_' ∉ a → '_' ∉ b →
      a ++ '_' :: u = b ++ '_' :: v →
      a = b ∧ u = v := by
  induction a with
  | nil =>
    intro b u v _ hb h
    cases b with
    | nil => simpa using h
    | cons c bs =>
      exfalso
      simp only [List.nil_append, List.cons_append, List.cons.injEq] at h
      exact hb (h.1 ▸ List.mem_cons_self c bs)
  | cons c as ih =>
    intro b u v ha hb h
    cases b with
    | nil =>
      exfalso
      simp only [List.cons_append, List.nil_append, List.cons.injEq] at h
      exact ha (h.1 ▸ List.mem_cons_self c as)
    | cons d bs =>
      simp only [List.cons_append, List.cons.injEq] at h
      have ha' : '_' ∉ as := fun hm => ha (List.mem_cons_of_mem c hm)
      have hb' : '_' ∉ bs := fun hm => hb (List.mem_cons_of_mem d hm)
      obtain ⟨h1, h2⟩ := ih bs u v ha' hb' h.2
      exact ⟨by rw [h.1, h1], h2⟩

theorem sep_mem_joinData (x : List Char) (r : List (List Char)) (hr : r ≠ []) :
    '_' ∈ joinData (x :: r) := by
  cases r with
  | nil => exact absurd rfl hr
  | cons y ys =>
    simp only [joinData]
    exact List.mem_append_right x (List.mem_cons_self _ _)

theorem joinData_inj (xs : List (List Char)) :
    ∀ (ys : List (List Char)),
      (∀ l ∈ xs, '_' ∉ l) → (∀ l ∈ ys, '_' ∉ l) →
      xs ≠ [] → ys ≠ [] → joinData xs = joinData ys → xs = ys := by
  induction xs with
  | nil => intro ys _ _ hxs _ _; exact absurd rfl hxs
  | cons x xr ih =>
    intro ys hx hy _ hys h
    cases ys with
    | nil => exact absurd rfl hys
    | cons y yr =>
      cases xr with
      | nil =>
        cases yr with
        | nil => simpa [joinData] using h
        | cons y2 yr2 =>
          exfalso
          have hmem : '_' ∈ joinData (y :: y2 :: yr2) :=
            sep_mem_joinData y (y2 :: yr2) (by simp)
          rw [← h] at hmem
          exact hx x (List.mem_cons_self _ _) (by simpa [joinData] using hmem)
      | cons x2 xr2 =>
        cases yr with
        | nil =>
          exfalso
          have hmem : '_' ∈ joinData (x :: x2 :: xr2) :=
            sep_mem_joinData x (x2 :: xr2) (by simp)
          rw [h] at hmem
          exact hy y (List.mem_cons_self _ _) (by simpa [joinData] using hmem)
        | cons y2 yr2 =>
          have h' : x ++ '_' :: joinData (x2 :: xr2)
              = y ++ '_' :: joinData (y2 :: yr2) := by
            simpa [joinData] using h
          obtain ⟨hxy, hrest⟩ := sep_chain_inj x y _ _
            (hx x (List.mem_cons_self _ _)) (hy y (List.mem_cons_self _ _)) h'
          have : x2 :: xr2 = y2 :: yr2 := by
            refine ih (y2 :: yr2) ?_ ?_ (by simp) (by simp) hrest
            · intro l hl; exact hx l (List.mem_cons_of_mem x hl)
            · intro l hl; exact hy l (List.mem_cons_of_mem y hl)
          rw [hxy, this]

theorem base_tag_sepFree : sepFree contextAggregatorContextKey := by decide

/-! ## Collector objects (layer 1)

Direct translations of the aggregator structs and their methods, for the
claims that speak about one collector in isolation. -/

/-- Outcome of invoking a user callback on one item: it either returns
normally, producing an observable effect of type E, or it panics. -/
inductive CbRes (E : Type) where
  | ok (e : E)
  | panics

/-- A Go panic escaping a method call. -/
inductive GoPanic where
  | panicked

/-- The closure wrapped around the callback invocation in the streaming
collectors: a deferred recover() catches a panicking callback and discards
the panic, so the closure never propagates a panic and yields the effect
only when the callback returned normally. -/
def recoverCb {E : Type} : CbRes E → Option E
  | CbRes.ok e => some e
  | CbRes.panics => none

/-- Observable events during one Collect call on a streaming collector,
listed in program order. -/
inductive SEv (E : Type) where
  | cbRan (e : E)
  | cbPanicked
  | appended

/-- baseAggregator: the sequential collector, a bare slice. -/
structure baseAggregator (T : Type) where
  datas : List T

def baseAggregator.Collect {T} (a : baseAggregator T) (data : T) : baseAggregator T :=
  { datas := a.datas ++ [data] }

def baseAggregator.Aggregate {T} (a : baseAggregator T) : List T :=
  a.datas

/-- Fold a sequence of Collect calls over a base aggregator. -/
def baseCollectMany {T} (a : baseAggregator T) : List T → baseAggregator T
  | [] => a
  | x :: xs => baseCollectMany (a.Collect x) xs

/-- streamingAggregator: sequential collector with a per-item callback. -/
structure streamingAggregator (T E : Type) where
  datas : List T
  callback : Option (T → CbRes E)

/-- streamingAggregator.Collect: if a callback is set, invoke it inside the
deferred-recover closure; then append the item to storage. The Except layer
is the panic channel of the method itself: the recover means the method
always returns normally. The event list records what happened in program
order (callback event first, append second). -/
def streamingAggregator.Collect {T E} (a : streamingAggregator T E) (data : T) :
    Except GoPanic (streamingAggregator T E × List (SEv E)) :=
  let cbTrace : List (SEv E) :=
    match a.callback with
    | none => []
    | some cb =>
      match recoverCb (cb data) with
      | some e => [SEv.cbRan e]
      | none => [SEv.cbPanicked]
  Except.ok ({ datas := a.datas ++ [data], callback := a.callback },
    cbTrace ++ [SEv.appended])

/-- Fold a sequence of Collect calls over a streaming aggregator,
propagating any panic that escapes a Collect call. -/
def streamingCollectMany {T E} (a : streamingAggregator T E) :
    List T → Except GoPanic (streamingAggregator T E)
  | [] => Except.ok a
  | x :: xs =>
    match a.Collect x with
    | Except.error p => Except.error p
    | Except.ok (a', _) => streamingCollectMany a' xs

/-- concurrentStreamingAggregator: thread-safe streaming collector. Its
Collect body is the same callback-then-append sequence, executed under the
mutex; one serialized call is modelled here. -/
structure concurrentStreamingAggregator (T E : Type) where
  datas : List T
  wc : Nat
  callback : Option (T → CbRes E)

def concurrentStreamingAggregator.Collect {T E} (a : concurrentStreamingAggregator T E)
    (data : T) : Except GoPanic (concurrentStreamingAggregator T E × List (SEv E)) :=
  let cbTrace : List (SEv E) :=
    match a.callback with
    | none => []
    | some cb =>
      match recoverCb (cb data) with
      | some e => [SEv.cbRan e]
      | none => [SEv.cbPanicked]
  Except.ok ({ datas := a.datas ++ [data], wc := a.wc, callback := a.callback },
    cbTrace ++ [SEv.appended])

/-! ## Registry layer (layer 2)

The heap of aggregator objects and the context value chain are explicit.
A context value is a key-to-address chain (newest binding first), exactly
the lookup behaviour of Go's context.WithValue / ctx.Value. Aggregator
element types are represented by a tag of an arbitrary decidable-equality
type Ty, mirroring Go's runtime type identity used by the type assertion
in extractAggregator; item values share one carrier type V. -/

/-- Heap address of an aggregator object. -/
abbrev Addr := Nat

/-- The four collector variants of the package. -/
inductive AggKind where
  | base
  | concurrent
  | streaming
  | concurrentStreaming
deriving DecidableEq

/-- Callback outcome at the registry level: only whether it panics matters
here; effects are tracked in the layer-1 model. -/
inductive CbOutcome where
  | normal
  | panics
deriving DecidableEq

/-- One aggregator object on the heap: its registered element type tag, its
variant, the collected items, the wait-group counter (concurrent variants;
zero and unused otherwise) and the optional callback (streaming variants). -/
structure AggObj (V Ty : Type) where
  ty : Ty
  kind : AggKind
  datas : List V
  wc : Nat
  callback : Option (V → CbOutcome)

/-- The heap: aggregator objects indexed by allocation order. -/
structure World (V Ty : Type) where
  heap : List (AggObj V Ty)

/-- A context value: a chain of key-to-address bindings, newest first. -/
abbrev Ctx := List (String × Addr)

/-- ctx.Value: walk the chain from the newest binding. -/
def ctxValue (ctx : Ctx) (k : String) : Option Addr :=
  match ctx with
  | [] => none
  | (k', a) :: rest => if k' = k then some a else ctxValue rest k

def heapGet {V Ty} (w : World V Ty) (a : Addr) : Option (AggObj V Ty) :=
  w.heap[a]?

def heapSet {V Ty} (w : World V Ty) (a : Addr) (obj : AggObj V Ty) : World V Ty :=
  ⟨w.heap.set a obj⟩

/-- Shared body of every Register variant: allocate a fresh aggregator
object and bind its address at the computed key in a derived context value
(context.WithValue); the input context value is left as it is. -/
def registerAgg {V Ty} (w : World V Ty) (ctx : Ctx) (obj : AggObj V Ty)
    (keys : List String) : World V Ty × Ctx :=
  (⟨w.heap ++ [obj]⟩, (buildContextKey keys, w.heap.length) :: ctx)

def RegisterBaseContextAggregator {V Ty} (ty : Ty) (w : World V Ty) (ctx : Ctx)
    (keys : List String) : World V Ty × Ctx :=
  registerAgg w ctx ⟨ty, AggKind.base, [], 0, none⟩ keys

def RegisterConcurrentContextAggregator {V Ty} (ty : Ty) (w : World V Ty) (ctx : Ctx)
    (keys : List String) : World V Ty × Ctx :=
  registerAgg w ctx ⟨ty, AggKind.concurrent, [], 0, none⟩ keys

/-- The capacity argument is a pre-allocation hint only: make with length
zero and a capacity yields the empty slice, so the allocated object state
is identical to the plain variant. -/
def RegisterConcurrentContextAggregatorWithCapacity {V Ty} (ty : Ty) (capacity : Nat)
    (w : World V Ty) (ctx : Ctx) (keys : List String) : World V Ty × Ctx :=
  registerAgg w ctx ⟨ty, AggKind.concurrent, [], 0, none⟩ keys

def RegisterStreamingAggregator {V Ty} (ty : Ty) (cb : V → CbOutcome)
    (w : World V Ty) (ctx : Ctx) (keys : List String) : World V Ty × Ctx :=
  registerAgg w ctx ⟨ty, AggKind.streaming, [], 0, some cb⟩ keys

def RegisterStreamingAggregatorWithCapacity {V Ty} (ty : Ty) (capacity : Nat)
    (cb : V → CbOutcome) (w : World V Ty) (ctx : Ctx) (keys : List String) :
    World V Ty × Ctx :=
  registerAgg w ctx ⟨ty, AggKind.streaming, [], 0, some cb⟩ keys

def RegisterConcurrentStreamingAggregator {V Ty} (ty : Ty) (cb : V → CbOutcome)
    (w : World V Ty) (ctx : Ctx) (keys : List String) : World V Ty × Ctx :=
  registerAgg w ctx ⟨ty, AggKind.concurrentStreaming, [], 0, some cb⟩ keys

def RegisterConcurrentStreamingAggregatorWithCapacity {V Ty} (ty : Ty) (capacity : Nat)
    (cb : V → CbOutcome) (w : World V Ty) (ctx : Ctx) (keys : List String) :
    World V Ty × Ctx :=
  registerAgg w ctx ⟨ty, AggKind.concurrentStreaming, [], 0, some cb⟩ keys

/-- The two error values of the package. -/
inductive AggErr where
  | ErrNotFoundAggregator
  | ErrInvalidType
deriving DecidableEq

/-- extractAggregator: look the computed key up in the context chain; a
missing binding is NotFound (ctx.Value returned nil); a binding whose
registered type tag differs from the requested one fails the type
assertion, which is InvalidType. -/
def extractAggregator {V Ty} [DecidableEq Ty] (reqTy : Ty) (w : World V Ty)
    (ctx : Ctx) (keys : List String) : Except AggErr (Addr × AggObj V Ty) :=
  match ctxValue ctx (buildContextKey keys) with
  | none => Except.error AggErr.ErrNotFoundAggregator
  | some a =>
    match heapGet w a with
    | none => Except.error AggErr.ErrNotFoundAggregator
    | some obj =>
      if obj.ty = reqTy then Except.ok (a, obj)
      else Except.error AggErr.ErrInvalidType

/-- Package-level Collect: resolve, then append through the resolved
reference. Every variant's Collect appends the item; the callback side
effects and locking of the streaming and concurrent variants do not change
the stored sequence. An error leaves the heap untouched. -/
def Collect {V Ty} [DecidableEq Ty] (reqTy : Ty) (w : World V Ty) (ctx : Ctx)
    (data : V) (keys : List String) : World V Ty × Option AggErr :=
  match extractAggregator reqTy w ctx keys with
  | Except.error e => (w, some e)
  | Except.ok (a, obj) =>
    (heapSet w a { obj with datas := obj.datas ++ [data] }, none)

/-- Fold a sequence of package-level Collect calls, recording each call's
error result. -/
def collectMany {V Ty} [DecidableEq Ty] (reqTy : Ty) (w : World V Ty) (ctx : Ctx)
    (keys : List String) : List V → World V Ty × List (Option AggErr)
  | [] => (w, [])
  | x :: xs =>
    let (w', e) := Collect reqTy w ctx x keys
    let (w'', es) := collectMany reqTy w' ctx keys xs
    (w'', e :: es)

/-- Package-level Aggregate: resolve, then return the stored sequence. The
error paths return the nil slice, modelled as none. -/
def Aggregate {V Ty} [DecidableEq Ty] (reqTy : Ty) (w : World V Ty) (ctx : Ctx)
    (keys : List String) : Option (List V) × Option AggErr :=
  match extractAggregator reqTy w ctx keys with
  | Except.error e => (none, some e)
  | Except.ok (_, obj) => (some obj.datas, none)

/-- The loop of AggregateWithFilter: range over the snapshot, appending
matching items to the accumulator (which starts as the empty non-nil
slice). -/
def goFilterLoop {V} (p : V → Bool) (items : List V) (acc : List V) : List V :=
  match items with
  | [] => acc
  | x :: xs => goFilterLoop p xs (if p x then acc ++ [x] else acc)

/-- The loop of AggregateWithTransform. -/
def goTransformLoop {V R} (f : V → R) (items : List V) (acc : List R) : List R :=
  match items with
  | [] => acc
  | x :: xs => goTransformLoop f xs (acc ++ [f x])

/-- The single-pass loop of AggregateWithFilterAndTransform. -/
def goFilterTransformLoop {V R} (p : V → Bool) (f : V → R) (items : List V)
    (acc : List R) : List R :=
  match items with
  | [] => acc
  | x :: xs => goFilterTransformLoop p f xs (if p x then acc ++ [f x] else acc)

def AggregateWithFilter {V Ty} [DecidableEq Ty] (reqTy : Ty) (w : World V Ty)
    (ctx : Ctx) (p : V → Bool) (keys : List String) :
    Option (List V) × Option AggErr :=
  match extractAggregator reqTy w ctx keys with
  | Except.error e => (none, some e)
  | Except.ok (_, obj) => (some (goFilterLoop p obj.datas []), none)

def AggregateWithTransform {V R Ty} [DecidableEq Ty] (reqTy : Ty) (w : World V Ty)
    (ctx : Ctx) (f : V → R) (keys : List String) :
    Option (List R) × Option AggErr :=
  match extractAggregator reqTy w ctx keys with
  | Except.error e => (none, some e)
  | Except.ok (_, obj) => (some (goTransformLoop f obj.datas []), none)

def AggregateWithFilterAndTransform {V R Ty} [DecidableEq Ty] (reqTy : Ty)
    (w : World V Ty) (ctx : Ctx) (p : V → Bool) (f : V → R) (keys : List String) :
    Option (List R) × Option AggErr :=
  match extractAggregator reqTy w ctx keys with
  | Except.error e => (none, some e)
  | Except.ok (_, obj) => (some (goFilterTransformLoop p f obj.datas []), none)

/-- Which aggregator kinds satisfy the IConcurrentAggregator interface
assertion (AddWait and Done methods). -/
def isIConcurrentAggregator : AggKind → Bool
  | AggKind.concurrent => true
  | AggKind.concurrentStreaming => true
  | AggKind.base => false
  | AggKind.streaming => false

/-- The completion closure returned by WaitFunc: either the empty closure
or one that captured the aggregator reference and calls Done on it. -/
inductive CompletionFn where
  | noop
  | done (a : Addr)

/-- WaitFunc: resolve the key without a type tag check; if no value is
bound, or the bound value does not implement IConcurrentAggregator, hand
back the context and an empty closure; otherwise AddWait (increment the
wait-group counter) and hand back a closure that calls Done. The input
context is returned in every branch. -/
def WaitFunc {V Ty} (w : World V Ty) (ctx : Ctx) (keys : List String) :
    World V Ty × Ctx × CompletionFn :=
  match ctxValue ctx (buildContextKey keys) with
  | none => (w, ctx, CompletionFn.noop)
  | some a =>
    match heapGet w a with
    | none => (w, ctx, CompletionFn.noop)
    | some obj =>
      if isIConcurrentAggregator obj.kind then
        (heapSet w a { obj with wc := obj.wc + 1 }, ctx, CompletionFn.done a)
      else (w, ctx, CompletionFn.noop)

/-- Invoking the completion closure: the empty closure does nothing; the
captured one decrements the wait-group counter of its aggregator. -/
def runCompletionFn {V Ty} (w : World V Ty) : CompletionFn → World V Ty
  | CompletionFn.noop => w
  | CompletionFn.done a =>
    match heapGet w a with
    | none => w
    | some obj => heapSet w a { obj with wc := obj.wc - 1 }

/-! ## Interleaving model of the concurrent collector

concurrentAggregator shares one items slice, one mutex and one wait-group
counter between a producer thread and a consumer thread. Each method is a
short straight-line program over that shared state; a configuration holds
the shared state, the remaining program of each thread, and the consumer's
local snapshot register. A step executes the head instruction of one
thread when that instruction is enabled. Only the instructions occurring
in the modelled methods are given semantics for each thread. -/

/-- Atomic actions appearing in the concurrent collector's methods. -/
inductive CInstr (T : Type) where
  | lockM
  | unlockM
  | appendD (x : T)
  | waitZero
  | readSnap
  | decWait

/-- A two-thread configuration: shared items slice, wait-group counter and
mutex, the producer's and consumer's remaining instructions, and the
consumer's snapshot register. -/
structure CCfg (T : Type) where
  datas : List T
  wc : Nat
  locked : Bool
  prodRem : List (CInstr T)
  consRem : List (CInstr T)
  snap : Option (List T)

/-- concurrentAggregator.Collect: lock the mutex, append, unlock. -/
def CollectProg {T} (x : T) : List (CInstr T) :=
  [CInstr.lockM, CInstr.appendD x, CInstr.unlockM]

/-- concurrentAggregator.Aggregate: first wait on the wait group until the
outstanding count reaches zero, then lock the mutex, read the snapshot,
unlock. -/
def AggregateProg (T : Type) : List (CInstr T) :=
  [CInstr.waitZero, CInstr.lockM, CInstr.readSnap, CInstr.unlockM]

/-- A producer that runs Collect and then the completion function obtained
from WaitFunc (agg.Done, the wait-group decrement), as in the deferred
completion idiom. -/
def ProducerProg {T} (x : T) : List (CInstr T) :=
  CollectProg x ++ [CInstr.decWait]

/-- One interleaving step: the producer or the consumer executes the head
instruction of its remaining program. Locking requires the mutex free;
waitZero requires the wait-group counter to be zero; decWait requires a
positive counter (Done below zero is a fatal misuse, outside the model). -/
inductive CStep {T : Type} : CCfg T → CCfg T → Prop where
  | pLock (d wc pr cr sn) :
      CStep ⟨d, wc, false, CInstr.lockM :: pr, cr, sn⟩
        ⟨d, wc, true, pr, cr, sn⟩
  | pAppend (d wc lk x pr cr sn) :
      CStep ⟨d, wc, lk, CInstr.appendD x :: pr, cr, sn⟩
        ⟨d ++ [x], wc, lk, pr, cr, sn⟩
  | pUnlock (d wc pr cr sn) :
      CStep ⟨d, wc, true, CInstr.unlockM :: pr, cr, sn⟩
        ⟨d, wc, false, pr, cr, sn⟩
  | pDecWait (d n lk pr cr sn) :
      CStep ⟨d, n + 1, lk, CInstr.decWait :: pr, cr, sn⟩
        ⟨d, n, lk, pr, cr, sn⟩
  | cWaitZero (d lk pr cr sn) :
      CStep ⟨d, 0, lk, pr, CInstr.waitZero :: cr, sn⟩
        ⟨d, 0, lk, pr, cr, sn⟩
  | cLock (d wc pr cr sn) :
      CStep ⟨d, wc, false, pr, CInstr.lockM :: cr, sn⟩
        ⟨d, wc, true, pr, cr, sn⟩
  | cReadSnap (d wc lk pr cr sn) :
      CStep ⟨d, wc, lk, pr, CInstr.readSnap :: cr, sn⟩
        ⟨d, wc, lk, pr, cr, some d⟩
  | cUnlock (d wc pr cr sn) :
      CStep ⟨d, wc, true, pr, CInstr.unlockM :: cr, sn⟩
        ⟨d, wc, false, pr, cr, sn⟩

/-- Reflexive-transitive closure of the interleaving step. -/
inductive CReach {T : Type} : CCfg T → CCfg T → Prop where
  | refl (c) : CReach c c
  | tail {a b c} : CReach a b → CStep b c → CReach a c

/-- Initial configuration of the BeginWait scenario: the orchestrator has
already called WaitFunc (so the counter is one), the producer still has to
run Collect and the completion function, the consumer is about to run
Aggregate. -/
def c1Init {T} (d0 : List T) (x : T) : CCfg T :=
  ⟨d0, 1, false, ProducerProg x, AggregateProg T, none⟩

/-- Initial configuration of the opt-out scenario: nobody announced work,
so the counter is zero and only the consumer has a program. -/
def c9Init {T} (d0 : List T) : CCfg T :=
  ⟨d0, 0, false, [], AggregateProg T, none⟩

/-- Safety invariant of the BeginWait scenario. -/
def C1Inv {T} (x : T) (c : CCfg T) : Prop :=
  (c.prodRem = ProducerProg x
    ∨ c.prodRem = [CInstr.appendD x, CInstr.unlockM, CInstr.decWait]
    ∨ c.prodRem = [CInstr.unlockM, CInstr.decWait]
    ∨ c.prodRem = [CInstr.decWait]
    ∨ c.prodRem = [])
  ∧ (c.consRem = AggregateProg T
    ∨ c.consRem = [CInstr.lockM, CInstr.readSnap, CInstr.unlockM]
    ∨ c.consRem = [CInstr.readSnap, CInstr.unlockM]
    ∨ c.consRem = [CInstr.unlockM]
    ∨ c.consRem = [])
  ∧ (c.prodRem = [] → c.wc = 0)
  ∧ (c.prodRem ≠ [] → c.wc = 1)
  ∧ ((c.prodRem = [CInstr.unlockM, CInstr.decWait]
      ∨ c.prodRem = [CInstr.decWait] ∨ c.prodRem = []) → x ∈ c.datas)
  ∧ (c.consRem ≠ AggregateProg T → c.prodRem = [])
  ∧ (∀ s, c.snap = some s → x ∈ s)

theorem c1_inv_init {T : Type} (d0 : List T) (x : T) : C1Inv x (c1Init d0 x) := by
  simp [C1Inv, c1Init, ProducerProg, CollectProg, AggregateProg]

theorem c1_inv_step {T : Type} {x : T} {b c : CCfg T} (hb : C1Inv x b)
    (hs : CStep b c) : C1Inv x c := by
  obtain ⟨hp, hc, hw0, hw1, hx, hcp, hsnap⟩ := hb
  cases hs <;>
    rcases hp with hp | hp | hp | hp | hp <;>
    rcases hc with hc | hc | hc | hc | hc <;>
    simp_all [C1Inv, ProducerProg, CollectProg, AggregateProg]

theorem c1_inv_reach {T : Type} {x : T} {d0 : List T} {c : CCfg T}
    (h : CReach (c1Init d0 x) c) : C1Inv x c := by
  induction h with
  | refl => exact c1_inv_init d0 x
  | tail hr hs ih => exact c1_inv_step ih hs

/-! ## Helper lemmas about the registry layer -/

theorem ctxValue_cons_self (ctx : Ctx) (k : String) (a : Addr) :
    ctxValue ((k, a) :: ctx) k = some a := by
  simp [ctxValue]

theorem ctxValue_cons_ne (ctx : Ctx) (k k' : String) (a : Addr) (h : k' ≠ k) :
    ctxValue ((k', a) :: ctx) k = ctxValue ctx k := by
  simp [ctxValue, h]

theorem heapGet_alloc {V Ty} (w : World V Ty) (obj : AggObj V Ty) :
    heapGet ⟨w.heap ++ [obj]⟩ w.heap.length = some obj :=
  List.getElem?_concat_length _ _

theorem heapGet_alloc_old {V Ty} (w : World V Ty) (obj : AggObj V Ty) (a : Addr)
    (h : a < w.heap.length) : heapGet ⟨w.heap ++ [obj]⟩ a = heapGet w a :=
  List.getElem?_append_left h

theorem heapGet_lt {V Ty} {w : World V Ty} {a : Addr} {obj : AggObj V Ty}
    (h : heapGet w a = some obj) : a < w.heap.length :=
  (List.getElem?_eq_some.mp h).1

theorem heapGet_set_self {V Ty} {w : World V Ty} {a : Addr} {obj : AggObj V Ty}
    (o' : AggObj V Ty) (h : heapGet w a = some obj) :
    heapGet (heapSet w a o') a = some o' := by
  have hlt := heapGet_lt h
  simp [heapGet, heapSet, List.getElem?_set_self', List.getElem?_eq_getElem hlt]

theorem heapGet_set_ne {V Ty} (w : World V Ty) (a b : Addr) (o' : AggObj V Ty)
    (h : a ≠ b) : heapGet (heapSet w a o') b = heapGet w b := by
  simp [heapGet, heapSet, List.getElem?_set_ne h]

theorem extractAggregator_ok {V Ty} [DecidableEq Ty] {reqTy : Ty} {w : World V Ty}
    {ctx : Ctx} {keys : List String} {a : Addr} {obj : AggObj V Ty}
    (h1 : ctxValue ctx (buildContextKey keys) = some a)
    (h2 : heapGet w a = some obj) (h3 : obj.ty = reqTy) :
    extractAggregator reqTy w ctx keys = Except.ok (a, obj) := by
  simp [extractAggregator, h1, h2, h3]

theorem extractAggregator_notFound {V Ty} [DecidableEq Ty] {reqTy : Ty}
    {w : World V Ty} {ctx : Ctx} {keys : List String}
    (h1 : ctxValue ctx (buildContextKey keys) = none) :
    extractAggregator reqTy w ctx keys = Except.error AggErr.ErrNotFoundAggregator := by
  simp [extractAggregator, h1]

theorem extractAggregator_mismatch {V Ty} [DecidableEq Ty] {reqTy : Ty}
    {w : World V Ty} {ctx : Ctx} {keys : List String} {a : Addr} {obj : AggObj V Ty}
    (h1 : ctxValue ctx (buildContextKey keys) = some a)
    (h2 : heapGet w a = some obj) (h3 : obj.ty ≠ reqTy) :
    extractAggregator reqTy w ctx keys = Except.error AggErr.ErrInvalidType := by
  simp [extractAggregator, h1, h2, h3]

theorem goFilterLoop_all_false {V} (p : V → Bool) (xs : List V) :
    ∀ acc, (∀ x ∈ xs, p x = false) → goFilterLoop p xs acc = acc := by
  induction xs with
  | nil => intro acc _; rfl
  | cons x xs ih =>
    intro acc h
    have hx := h x (List.mem_cons_self _ _)
    simp [goFilterLoop, hx]
    exact ih acc fun y hy => h y (List.mem_cons_of_mem x hy)

theorem goFilterTransformLoop_all_false {V R} (p : V → Bool) (f : V → R)
    (xs : List V) : ∀ acc, (∀ x ∈ xs, p x = false) →
    goFilterTransformLoop p f xs acc = acc := by
  induction xs with
  | nil => intro acc _; rfl
  | cons x xs ih =>
    intro acc h
    have hx := h x (List.mem_cons_self _ _)
    simp [goFilterTransformLoop, hx]
    exact ih acc fun y hy => h y (List.mem_cons_of_mem x hy)

theorem goFilterTransformLoop_eq_map {V R} (p : V → Bool) (f : V → R)
    (xs : List V) : ∀ acc, goFilterTransformLoop p f xs (List.map f acc)
      = List.map f (goFilterLoop p xs acc) := by
  induction xs with
  | nil => intro acc; rfl
  | cons x xs ih =>
    intro acc
    by_cases hx : p x
    · have : List.map f acc ++ [f x] = List.map f (acc ++ [x]) := by simp
      simp only [goFilterTransformLoop, goFilterLoop, hx, if_true, this]
      exact ih (acc ++ [x])
    · simp only [goFilterTransformLoop, goFilterLoop, hx, if_false]
      exact ih acc

theorem collectMany_ok {V Ty} [DecidableEq Ty] (reqTy : Ty) (ctx : Ctx)
    (keys : List String) (xs : List V) :
    ∀ (w : World V Ty) (a : Addr) (obj : AggObj V Ty),
      ctxValue ctx (buildContextKey keys) = some a →
      heapGet w a = some obj →
      obj.ty = reqTy →
      (collectMany reqTy w ctx keys xs).2 = xs.map (fun _ => none)
      ∧ heapGet (collectMany reqTy w ctx keys xs).1 a
          = some { obj with datas := obj.datas ++ xs }
      ∧ ∀ b, b ≠ a → heapGet (collectMany reqTy w ctx keys xs).1 b = heapGet w b := by
  induction xs with
  | nil =>
    intro w a obj h1 h2 h3
    refine ⟨rfl, ?_, fun b _ => rfl⟩
    simpa using h2
  | cons x xs ih =>
    intro w a obj h1 h2 h3
    have hext := extractAggregator_ok h1 h2 h3
    have hcol : Collect reqTy w ctx x keys
        = (heapSet w a { obj with datas := obj.datas ++ [x] }, none) := by
      simp [Collect, hext]
    have hget : heapGet (heapSet w a { obj with datas := obj.datas ++ [x] }) a
        = some { obj with datas := obj.datas ++ [x] } :=
      heapGet_set_self _ h2
    obtain ⟨he, hg, hrest⟩ := ih (heapSet w a { obj with datas := obj.datas ++ [x] })
      a { obj with datas := obj.datas ++ [x] } h1 hget h3
    refine ⟨?_, ?_, ?_⟩
    · simp [collectMany, hcol, he]
    · simp only [collectMany, hcol]
      simpa using hg
    · intro b hb
      simp only [collectMany, hcol]
      rw [hrest b hb]
      exact heapGet_set_ne w a b _ (fun h => hb h.symm)

theorem streamingCollectMany_ok {T E} (xs : List T) :
    ∀ (a : streamingAggregator T E), ∃ a',
      streamingCollectMany a xs = Except.ok a'
      ∧ a'.datas = a.datas ++ xs ∧ a'.callback = a.callback := by
  induction xs with
  | nil => intro a; exact ⟨a, rfl, by simp, rfl⟩
  | cons x xs ih =>
    intro a
    obtain ⟨a', h1, h2, h3⟩ := ih ⟨a.datas ++ [x], a.callback⟩
    refine ⟨a', ?_, by simp [h2], h3⟩
    simp only [streamingCollectMany, streamingAggregator.Collect]
    exact h1

theorem buildContextKey_inj (ks1 ks2 : List String)
    (h1 : ∀ s ∈ ks1, sepFree s) (h2 : ∀ s ∈ ks2, sepFree s)
    (h : buildContextKey ks1 = buildContextKey ks2) : ks1 = ks2 := by
  cases ks1 with
  | nil =>
    cases ks2 with
    | nil => rfl
    | cons k ks =>
      exfalso
      have hd : (buildContextKey []).data = (buildContextKey (k :: ks)).data := by rw [h]
      rw [show buildContextKey [] = contextAggregatorContextKey from rfl] at hd
      have hne : buildContextKey (k :: ks)
          = goStringsJoin (contextAggregatorContextKey :: k :: ks) "_" := by
        simp [buildContextKey]
      rw [hne, goStringsJoin_data] at hd
      have hmem : '_' ∈ joinData
          ((contextAggregatorContextKey :: k :: ks).map String.data) :=
        sep_mem_joinData _ _ (by simp)
      rw [← hd] at hmem
      exact base_tag_sepFree hmem
  | cons k1 kr1 =>
    cases ks2 with
    | nil =>
      exfalso
      have hd : (buildContextKey (k1 :: kr1)).data = (buildContextKey []).data := by rw [h]
      rw [show buildContextKey [] = contextAggregatorContextKey from rfl] at hd
      have hne : buildContextKey (k1 :: kr1)
          = goStringsJoin (contextAggregatorContextKey :: k1 :: kr1) "_" := by
        simp [buildContextKey]
      rw [hne, goStringsJoin_data] at hd
      have hmem : '_' ∈ joinData
          ((contextAggregatorContextKey :: k1 :: kr1).map String.data) :=
        sep_mem_joinData _ _ (by simp)
      rw [hd] at hmem
      exact base_tag_sepFree hmem
    | cons k2 kr2 =>
      have ha : buildContextKey (k1 :: kr1)
          = goStringsJoin (contextAggregatorContextKey :: k1 :: kr1) "_" := by
        simp [buildContextKey]
      have hb : buildContextKey (k2 :: kr2)
          = goStringsJoin (contextAggregatorContextKey :: k2 :: kr2) "_" := by
        simp [buildContextKey]
      rw [ha, hb] at h
      have hd := congrArg String.data h
      rw [goStringsJoin_data, goStringsJoin_data] at hd
      have hfree1 : ∀ l ∈ (contextAggregatorContextKey :: k1 :: kr1).map String.data,
          '_' ∉ l := by
        intro l hl
        rw [List.mem_map] at hl
        obtain ⟨s, hs, rfl⟩ := hl
        rcases List.mem_cons.mp hs with rfl | hs'
        · exact base_tag_sepFree
        · exact h1 s hs'
      have hfree2 : ∀ l ∈ (contextAggregatorContextKey :: k2 :: kr2).map String.data,
          '_' ∉ l := by
        intro l hl
        rw [List.mem_map] at hl
        obtain ⟨s, hs, rfl⟩ := hl
        rcases List.mem_cons.mp hs with rfl | hs'
        · exact base_tag_sepFree
        · exact h2 s hs'
      have := joinData_inj _ _ hfree1 hfree2 (by simp) (by simp) hd
      have hmaps : (contextAggregatorContextKey :: k1 :: kr1)
          = contextAggregatorContextKey :: k2 :: kr2 :=
        List.map_injective_iff.mpr string_data_inj this
      exact (List.cons.injEq _ _ _ _ ▸ hmaps).2


/-! ## Claim theorems -/

/-- C1: Retrieve on the Concurrent collector first waits for the
outstanding count to reach zero (AggregateProg) and only then locks and
reads; hence, starting from a state where BeginWait has run (counter one)
and the producer still has to Collect x and then invoke the completion
function, in every reachable configuration the consumer has not passed its
wait (let alone returned) unless the completion function has run, and any
snapshot it returned contains the producer's item x. -/
theorem C1_retrieve_waits_for_completion {T : Type} (d0 : List T) (x : T)
    (c : CCfg T) (h : CReach (c1Init d0 x) c) :
    (c.consRem ≠ AggregateProg T → c.prodRem = [])
    ∧ (c.consRem = [] → c.prodRem = [])
    ∧ (∀ s, c.snap = some s → x ∈ s) := by
  obtain ⟨hp, hc, hw0, hw1, hx, hcp, hsnap⟩ := c1_inv_reach h
  refine ⟨hcp, ?_, hsnap⟩
  intro hce
  exact hcp (by rw [hce]; simp [AggregateProg])

theorem C1_witness :
    ((⟨[5], 0, false, [], [], some [5]⟩ : CCfg Nat).consRem = [] →
      (⟨[5], 0, false, [], [], some [5]⟩ : CCfg Nat).prodRem = [])
    ∧ (∀ s, (⟨[5], 0, false, [], [], some [5]⟩ : CCfg Nat).snap = some s →
        5 ∈ s) := by
  have hreach : CReach (c1Init [] 5) (⟨[5], 0, false, [], [], some [5]⟩ : CCfg Nat) := by
    have s1 : CStep (c1Init ([] : List Nat) 5)
        ⟨[], 1, true, [CInstr.appendD 5, CInstr.unlockM, CInstr.decWait],
          AggregateProg Nat, none⟩ :=
      CStep.pLock [] 1 [CInstr.appendD 5, CInstr.unlockM, CInstr.decWait]
        (AggregateProg Nat) none
    have s2 := CStep.pAppend ([] : List Nat) 1 true 5
      [CInstr.unlockM, CInstr.decWait] (AggregateProg Nat) none
    have s3 := CStep.pUnlock [5] 1 ([CInstr.decWait] : List (CInstr Nat))
      (AggregateProg Nat) none
    have s4 := CStep.pDecWait [5] 0 false ([] : List (CInstr Nat))
      (AggregateProg Nat) none
    have s5 := CStep.cWaitZero [5] false ([] : List (CInstr Nat))
      [CInstr.lockM, CInstr.readSnap, CInstr.unlockM] none
    have s6 := CStep.cLock [5] 0 ([] : List (CInstr Nat))
      [CInstr.readSnap, CInstr.unlockM] none
    have s7 := CStep.cReadSnap [5] 0 true ([] : List (CInstr Nat))
      [CInstr.unlockM] none
    have s8 := CStep.cUnlock [5] 0 ([] : List (CInstr Nat)) [] (some [5])
    exact CReach.tail (CReach.tail (CReach.tail (CReach.tail (CReach.tail
      (CReach.tail (CReach.tail (CReach.tail (CReach.refl _) s1) s2) s3) s4)
      s5) s6) s7) s8
  have h := C1_retrieve_waits_for_completion [] 5
    (⟨[5], 0, false, [], [], some [5]⟩ : CCfg Nat) hreach
  exact ⟨h.2.1, h.2.2⟩

/-- C9: with no outstanding work announced (counter zero), Retrieve on the
Concurrent collector proceeds immediately: the four steps of AggregateProg
run back to back with no other thread, ending with the snapshot equal to
the items collected so far. -/
theorem C9_retrieve_immediate {T : Type} (d0 : List T) :
    CReach (c9Init d0) ⟨d0, 0, false, [], [], some d0⟩ := by
  have s1 : CStep (c9Init d0)
      ⟨d0, 0, false, [], [CInstr.lockM, CInstr.readSnap, CInstr.unlockM], none⟩ :=
    CStep.cWaitZero d0 false []
      [CInstr.lockM, CInstr.readSnap, CInstr.unlockM] none
  have s2 := CStep.cLock d0 0 ([] : List (CInstr T))
    [CInstr.readSnap, CInstr.unlockM] none
  have s3 := CStep.cReadSnap d0 0 true ([] : List (CInstr T))
    [CInstr.unlockM] none
  have s4 := CStep.cUnlock d0 0 ([] : List (CInstr T)) [] (some d0)
  exact CReach.tail (CReach.tail (CReach.tail (CReach.tail
    (CReach.refl _) s1) s2) s3) s4

/-- C2 counterexample: handle equality does not imply disambiguator
sequence equality, because a disambiguator may itself contain the
underscore separator. -/
theorem C2_counterexample :
    buildContextKey ["a_b"] = buildContextKey ["a", "b"]
    ∧ (["a_b"] : List String) ≠ ["a", "b"] := by
  constructor
  · decide
  · decide

/-- C2 (amended): handle construction is deterministic; no disambiguators
yields the bare namespace tag; one or more yields the namespace followed
by the disambiguators joined with the separator in call order; and for
disambiguators that do not contain the separator character, two handles
are equal iff the disambiguator sequences are equal element-wise and in
order. -/
theorem C2_handle_identity_amended :
    buildContextKey [] = contextAggregatorContextKey
    ∧ (∀ (k : String) (ks : List String), buildContextKey (k :: ks)
        = goStringsJoin (contextAggregatorContextKey :: k :: ks) "_")
    ∧ ∀ ks1 ks2 : List String, (∀ s ∈ ks1, sepFree s) → (∀ s ∈ ks2, sepFree s) →
        (buildContextKey ks1 = buildContextKey ks2 ↔ ks1 = ks2) := by
  refine ⟨rfl, ?_, ?_⟩
  · intro k ks
    simp [buildContextKey]
  · intro ks1 ks2 h1 h2
    constructor
    · exact buildContextKey_inj ks1 ks2 h1 h2
    · intro h
      rw [h]

theorem C2_witness :
    (∀ s ∈ (["a"] : List String), sepFree s)
    ∧ (∀ s ∈ (["b"] : List String), sepFree s)
    ∧ (buildContextKey ["a"] = buildContextKey ["b"] ↔ (["a"] : List String) = ["b"]) :=
  ⟨by decide, by decide,
    C2_handle_identity_amended.2.2 ["a"] ["b"] (by decide) (by decide)⟩

/-- C4: registering a Sequential (base) collector and then performing any
sequence of N Collect calls makes every call succeed, and a subsequent
Retrieve returns exactly those N items in call order. -/
theorem C4_sequential_collect_in_order {V Ty : Type} [DecidableEq Ty] (ty : Ty)
    (w : World V Ty) (ctx : Ctx) (keys : List String) (xs : List V) :
    (collectMany ty (RegisterBaseContextAggregator ty w ctx keys).1
        (RegisterBaseContextAggregator ty w ctx keys).2 keys xs).2
      = xs.map (fun _ => none)
    ∧ Aggregate ty (collectMany ty (RegisterBaseContextAggregator ty w ctx keys).1
        (RegisterBaseContextAggregator ty w ctx keys).2 keys xs).1
        (RegisterBaseContextAggregator ty w ctx keys).2 keys
      = (some xs, none) := by
  have h1 : ctxValue (RegisterBaseContextAggregator ty w ctx keys).2
      (buildContextKey keys) = some w.heap.length :=
    ctxValue_cons_self _ _ _
  have h2 : heapGet (RegisterBaseContextAggregator ty w ctx keys).1 w.heap.length
      = some ⟨ty, AggKind.base, [], 0, none⟩ :=
    heapGet_alloc w _
  obtain ⟨he, hg, _⟩ := collectMany_ok ty
    (RegisterBaseContextAggregator ty w ctx keys).2 keys xs
    (RegisterBaseContextAggregator ty w ctx keys).1 w.heap.length
    ⟨ty, AggKind.base, [], 0, none⟩ h1 h2 rfl
  refine ⟨he, ?_⟩
  have hext := extractAggregator_ok h1 hg rfl
  simp [Aggregate, hext]

/-- C5: within one Collect call on a Streaming (or Concurrent-Streaming)
collector, the callback runs first with any panic caught and discarded at
the point of invocation, and the item is appended afterward
unconditionally; Collect always returns normally, and an unconditionally
panicking callback does not prevent any of a sequence of Collect calls
from storing its item. -/
theorem C5_streaming_callback_contained {T E : Type} :
    (∀ (a : streamingAggregator T E) (x : T), ∃ a' tr,
        a.Collect x = Except.ok (a', tr)
        ∧ a'.datas = a.datas ++ [x]
        ∧ a'.callback = a.callback
        ∧ tr.getLast? = some SEv.appended
        ∧ (∀ cb e, a.callback = some cb → cb x = CbRes.ok e →
            tr = [SEv.cbRan e, SEv.appended])
        ∧ (∀ cb, a.callback = some cb → cb x = CbRes.panics →
            tr = [SEv.cbPanicked, SEv.appended]))
    ∧ (∀ (a : streamingAggregator T E) (xs : List T), ∃ a',
        streamingCollectMany a xs = Except.ok a'
        ∧ a'.datas = a.datas ++ xs)
    ∧ (∀ (a : concurrentStreamingAggregator T E) (x : T), ∃ a' tr,
        a.Collect x = Except.ok (a', tr)
        ∧ a'.datas = a.datas ++ [x]
        ∧ tr.getLast? = some SEv.appended
        ∧ (∀ cb, a.callback = some cb → cb x = CbRes.panics →
            tr = [SEv.cbPanicked, SEv.appended])) := by
  refine ⟨?_, ?_, ?_⟩
  · intro a x
    match hcb : a.callback with
    | none =>
      refine ⟨{ datas := a.datas ++ [x], callback := none },
        [SEv.appended], ?_, rfl, rfl, rfl, ?_, ?_⟩
      · simp [streamingAggregator.Collect, hcb]
      · intro cb e hsome; exact Option.noConfusion hsome
      · intro cb hsome; exact Option.noConfusion hsome
    | some cb =>
      match hres : cb x with
      | CbRes.ok e =>
        refine ⟨{ datas := a.datas ++ [x], callback := some cb },
          [SEv.cbRan e, SEv.appended], ?_, rfl, rfl, rfl, ?_, ?_⟩
        · simp [streamingAggregator.Collect, hcb, hres, recoverCb]
        · intro cb' e' hsome hok
          cases hsome
          rw [hres] at hok
          cases hok
          rfl
        · intro cb' hsome hpan
          cases hsome
          rw [hres] at hpan
          exact CbRes.noConfusion hpan
      | CbRes.panics =>
        refine ⟨{ datas := a.datas ++ [x], callback := some cb },
          [SEv.cbPanicked, SEv.appended], ?_, rfl, rfl, rfl, ?_, ?_⟩
        · simp [streamingAggregator.Collect, hcb, hres, recoverCb]
        · intro cb' e' hsome hok
          cases hsome
          rw [hres] at hok
          exact CbRes.noConfusion hok
        · intro cb' hsome _
          rfl
  · intro a xs
    obtain ⟨a', h1, h2, _⟩ := streamingCollectMany_ok xs a
    exact ⟨a', h1, h2⟩
  · intro a x
    match hcb : a.callback with
    | none =>
      refine ⟨{ datas := a.datas ++ [x], wc := a.wc, callback := none },
        [SEv.appended], ?_, rfl, rfl, ?_⟩
      · simp [concurrentStreamingAggregator.Collect, hcb]
      · intro cb hsome; exact Option.noConfusion hsome
    | some cb =>
      match hres : cb x with
      | CbRes.ok e =>
        refine ⟨{ datas := a.datas ++ [x], wc := a.wc, callback := some cb },
          [SEv.cbRan e, SEv.appended], ?_, rfl, rfl, ?_⟩
        · simp [concurrentStreamingAggregator.Collect, hcb, hres, recoverCb]
        · intro cb' hsome hpan
          cases hsome
          rw [hres] at hpan
          exact CbRes.noConfusion hpan
      | CbRes.panics =>
        refine ⟨{ datas := a.datas ++ [x], wc := a.wc, callback := some cb },
          [SEv.cbPanicked, SEv.appended], ?_, rfl, rfl, ?_⟩
        · simp [concurrentStreamingAggregator.Collect, hcb, hres, recoverCb]
        · intro cb' hsome _
          rfl

theorem C5_witness :
    ∃ (a' : streamingAggregator Nat Unit),
      streamingCollectMany
        (⟨[], some fun _ => CbRes.panics⟩ : streamingAggregator Nat Unit) [1, 2, 3]
        = Except.ok a'
      ∧ a'.datas = ([] : List Nat) ++ [1, 2, 3] :=
  (@C5_streaming_callback_contained Nat Unit).2.1
    ⟨[], some fun _ => CbRes.panics⟩ [1, 2, 3]

/-- C6: on any fixed snapshot (any world, context and key), for every
predicate and map function, the combined filter-and-transform Retrieve
variant returns exactly the filtered Retrieve variant followed by an
element-wise map, and the same error. -/
theorem C6_filter_transform_equivalence {V R Ty : Type} [DecidableEq Ty]
    (reqTy : Ty) (w : World V Ty) (ctx : Ctx) (p : V → Bool) (f : V → R)
    (keys : List String) :
    AggregateWithFilterAndTransform reqTy w ctx p f keys
      = ((AggregateWithFilter reqTy w ctx p keys).1.map (List.map f),
         (AggregateWithFilter reqTy w ctx p keys).2) := by
  unfold AggregateWithFilterAndTransform AggregateWithFilter
  cases hext : extractAggregator reqTy w ctx keys with
  | error e => rfl
  | ok res =>
    have : goFilterTransformLoop p f res.2.datas []
        = List.map f (goFilterLoop p res.2.datas []) :=
      goFilterTransformLoop_eq_map p f res.2.datas []
    simp [this]

/-- C7: whenever resolution succeeds, the filter, transform and
filter-plus-transform Retrieve variants return a present (non-nil)
sequence; in particular it is the present empty sequence when no element
qualifies (no element satisfies the predicate, or, for the transform
variant, the snapshot is empty). -/
theorem C7_empty_not_absent {V R Ty : Type} [DecidableEq Ty] (reqTy : Ty)
    (w : World V Ty) (ctx : Ctx) (p : V → Bool) (f : V → R)
    (keys : List String) (a : Addr) (obj : AggObj V Ty)
    (hres : extractAggregator reqTy w ctx keys = Except.ok (a, obj)) :
    ((∀ x ∈ obj.datas, p x = false) →
        AggregateWithFilter reqTy w ctx p keys = (some [], none)
        ∧ AggregateWithFilterAndTransform reqTy w ctx p f keys
            = (some ([] : List R), none))
    ∧ (obj.datas = [] →
        AggregateWithTransform reqTy w ctx f keys = (some ([] : List R), none)) := by
  constructor
  · intro hall
    constructor
    · simp [AggregateWithFilter, hres, goFilterLoop_all_false p obj.datas [] hall]
    · simp [AggregateWithFilterAndTransform, hres,
        goFilterTransformLoop_all_false p f obj.datas [] hall]
  · intro hempty
    simp [AggregateWithTransform, hres, hempty, goTransformLoop]

theorem C7_witness :
    ((∀ x ∈ (⟨"nat", AggKind.base, [1, 2, 3], 0, none⟩ : AggObj Nat String).datas,
        (fun v => decide (v > 10)) x = false) →
      AggregateWithFilter "nat" (⟨[⟨"nat", AggKind.base, [1, 2, 3], 0, none⟩]⟩ : World Nat String)
          [(buildContextKey [], 0)] (fun v => decide (v > 10)) [] = (some [], none)
      ∧ AggregateWithFilterAndTransform "nat"
          (⟨[⟨"nat", AggKind.base, [1, 2, 3], 0, none⟩]⟩ : World Nat String)
          [(buildContextKey [], 0)] (fun v => decide (v > 10)) (fun v => v + 1) []
          = (some ([] : List Nat), none))
    ∧ ((⟨"nat", AggKind.base, [1, 2, 3], 0, none⟩ : AggObj Nat String).datas = [] →
      AggregateWithTransform "nat" (⟨[⟨"nat", AggKind.base, [1, 2, 3], 0, none⟩]⟩ : World Nat String)
          [(buildContextKey [], 0)] (fun v => v + 1) [] = (some ([] : List Nat), none)) := by
  have h := C7_empty_not_absent "nat"
    (⟨[⟨"nat", AggKind.base, [1, 2, 3], 0, none⟩]⟩ : World Nat String)
    [(buildContextKey [], 0)] (fun v => decide (v > 10)) (fun v => v + 1) []
    0 ⟨"nat", AggKind.base, [1, 2, 3], 0, none⟩ (by rfl)
  exact ⟨fun hall => h.1 hall, h.2⟩

/-- C3: for every context and handle, resolution — and with it Collect and
every Retrieve variant — fails with the NotFound error value when no
collector is bound at the computed handle in the context chain, and with
the TypeMismatch error value when the bound collector was registered for a
different static element type tag than requested; the errors are returned
as values and the failing Collect leaves the heap unchanged (no item is
collected). -/
theorem C3_resolution_failure_modes {V Ty : Type} [DecidableEq Ty] {R : Type}
    (reqTy : Ty) (w : World V Ty) (ctx : Ctx) (keys : List String) (data : V)
    (p : V → Bool) (f : V → R) :
    (ctxValue ctx (buildContextKey keys) = none →
      Collect reqTy w ctx data keys = (w, some AggErr.ErrNotFoundAggregator)
      ∧ Aggregate reqTy w ctx keys = (none, some AggErr.ErrNotFoundAggregator)
      ∧ AggregateWithFilter reqTy w ctx p keys
          = (none, some AggErr.ErrNotFoundAggregator)
      ∧ AggregateWithTransform reqTy w ctx f keys
          = (none, some AggErr.ErrNotFoundAggregator)
      ∧ AggregateWithFilterAndTransform reqTy w ctx p f keys
          = (none, some AggErr.ErrNotFoundAggregator))
    ∧ (∀ a obj, ctxValue ctx (buildContextKey keys) = some a →
      heapGet w a = some obj → obj.ty ≠ reqTy →
      Collect reqTy w ctx data keys = (w, some AggErr.ErrInvalidType)
      ∧ Aggregate reqTy w ctx keys = (none, some AggErr.ErrInvalidType)
      ∧ AggregateWithFilter reqTy w ctx p keys
          = (none, some AggErr.ErrInvalidType)
      ∧ AggregateWithTransform reqTy w ctx f keys
          = (none, some AggErr.ErrInvalidType)
      ∧ AggregateWithFilterAndTransform reqTy w ctx p f keys
          = (none, some AggErr.ErrInvalidType)) := by
  constructor
  · intro h1
    have hext := @extractAggregator_notFound V Ty _ reqTy w ctx keys h1
    refine ⟨?_, ?_, ?_, ?_, ?_⟩ <;>
      simp [Collect, Aggregate, AggregateWithFilter, AggregateWithTransform,
        AggregateWithFilterAndTransform, hext]
  · intro a obj h1 h2 h3
    have hext := extractAggregator_mismatch h1 h2 h3
    refine ⟨?_, ?_, ?_, ?_, ?_⟩ <;>
      simp [Collect, Aggregate, AggregateWithFilter, AggregateWithTransform,
        AggregateWithFilterAndTransform, hext]

theorem C3_witness :
    Collect "int" (⟨[]⟩ : World Nat String) [] 7 []
      = (⟨[]⟩, some AggErr.ErrNotFoundAggregator)
    ∧ Collect "int"
        (⟨[⟨"int32", AggKind.base, [], 0, none⟩]⟩ : World Nat String)
        [(buildContextKey [], 0)] 7 []
      = (⟨[⟨"int32", AggKind.base, [], 0, none⟩]⟩,
          some AggErr.ErrInvalidType) := by
  have h1 := (C3_resolution_failure_modes "int" (⟨[]⟩ : World Nat String) []
    [] 7 (fun _ => true) (fun v : Nat => v)).1 rfl
  have h2 := (C3_resolution_failure_modes "int"
    (⟨[⟨"int32", AggKind.base, [], 0, none⟩]⟩ : World Nat String)
    [(buildContextKey [], 0)] [] 7 (fun _ => true) (fun v : Nat => v)).2
    0 ⟨"int32", AggKind.base, [], 0, none⟩ rfl rfl (by decide)
  exact ⟨h1.1, h2.1⟩

/-- C8: every Register variant (all share registerAgg) is pure and
non-mutating: it binds a fresh collector at the computed handle in a
derived context value; every other key still resolves as before and
pre-existing heap objects are untouched; re-registering under the same
handle shadows the binding in the newly derived context value, while the
old collector is not mutated, remains resolvable through the old context
value, and stays untouched even after collecting through the new context
value. -/
theorem C8_register_copy_on_write {V Ty : Type} [DecidableEq Ty] (w : World V Ty)
    (ctx : Ctx) (keys : List String) (obj1 obj2 : AggObj V Ty) :
    (ctxValue (registerAgg w ctx obj1 keys).2 (buildContextKey keys)
        = some w.heap.length
      ∧ heapGet (registerAgg w ctx obj1 keys).1 w.heap.length = some obj1)
    ∧ (∀ k, k ≠ buildContextKey keys →
        ctxValue (registerAgg w ctx obj1 keys).2 k = ctxValue ctx k)
    ∧ (∀ b, b < w.heap.length →
        heapGet (registerAgg w ctx obj1 keys).1 b = heapGet w b)
    ∧ (ctxValue (registerAgg (registerAgg w ctx obj1 keys).1
          (registerAgg w ctx obj1 keys).2 obj2 keys).2 (buildContextKey keys)
        = some (w.heap.length + 1)
      ∧ heapGet (registerAgg (registerAgg w ctx obj1 keys).1
          (registerAgg w ctx obj1 keys).2 obj2 keys).1 (w.heap.length + 1)
        = some obj2)
    ∧ heapGet (registerAgg (registerAgg w ctx obj1 keys).1
        (registerAgg w ctx obj1 keys).2 obj2 keys).1 w.heap.length = some obj1
    ∧ ∀ data, heapGet (Collect obj2.ty
        (registerAgg (registerAgg w ctx obj1 keys).1
          (registerAgg w ctx obj1 keys).2 obj2 keys).1
        (registerAgg (registerAgg w ctx obj1 keys).1
          (registerAgg w ctx obj1 keys).2 obj2 keys).2
        data keys).1 w.heap.length = some obj1 := by
  have hlen1 : (registerAgg w ctx obj1 keys).1.heap.length = w.heap.length + 1 := by
    simp [registerAgg]
  have hv1 : ctxValue (registerAgg w ctx obj1 keys).2 (buildContextKey keys)
      = some w.heap.length := ctxValue_cons_self _ _ _
  have hg1 : heapGet (registerAgg w ctx obj1 keys).1 w.heap.length = some obj1 :=
    heapGet_alloc w obj1
  have hv2 : ctxValue (registerAgg (registerAgg w ctx obj1 keys).1
      (registerAgg w ctx obj1 keys).2 obj2 keys).2 (buildContextKey keys)
      = some (w.heap.length + 1) := by
    rw [show (registerAgg (registerAgg w ctx obj1 keys).1
      (registerAgg w ctx obj1 keys).2 obj2 keys).2
      = (buildContextKey keys, (registerAgg w ctx obj1 keys).1.heap.length)
        :: (registerAgg w ctx obj1 keys).2 from rfl]
    rw [ctxValue_cons_self, hlen1]
  have hg2 : heapGet (registerAgg (registerAgg w ctx obj1 keys).1
      (registerAgg w ctx obj1 keys).2 obj2 keys).1 (w.heap.length + 1)
      = some obj2 := by
    have := heapGet_alloc (registerAgg w ctx obj1 keys).1 obj2
    rwa [hlen1] at this
  have hg1' : heapGet (registerAgg (registerAgg w ctx obj1 keys).1
      (registerAgg w ctx obj1 keys).2 obj2 keys).1 w.heap.length = some obj1 := by
    have hlt : w.heap.length < (registerAgg w ctx obj1 keys).1.heap.length := by
      rw [hlen1]; exact Nat.lt_succ_self _
    have hstep := heapGet_alloc_old (registerAgg w ctx obj1 keys).1 obj2
      w.heap.length hlt
    rw [hg1] at hstep
    exact hstep
  refine ⟨⟨hv1, hg1⟩, ?_, ?_, ⟨hv2, hg2⟩, hg1', ?_⟩
  · intro k hk
    exact ctxValue_cons_ne ctx k (buildContextKey keys) w.heap.length (Ne.symm hk)
  · intro b hb
    exact heapGet_alloc_old w obj1 b hb
  · intro data
    have hext := extractAggregator_ok hv2 hg2 rfl
    have hcol : Collect obj2.ty
        (registerAgg (registerAgg w ctx obj1 keys).1
          (registerAgg w ctx obj1 keys).2 obj2 keys).1
        (registerAgg (registerAgg w ctx obj1 keys).1
          (registerAgg w ctx obj1 keys).2 obj2 keys).2 data keys
        = (heapSet (registerAgg (registerAgg w ctx obj1 keys).1
            (registerAgg w ctx obj1 keys).2 obj2 keys).1 (w.heap.length + 1)
            { obj2 with datas := obj2.datas ++ [data] }, none) := by
      simp [Collect, hext]
    rw [hcol]
    rw [heapGet_set_ne _ _ _ _ (Nat.succ_ne_self w.heap.length)]
    exact hg1'

theorem C8_witness :
    ctxValue (registerAgg (⟨[]⟩ : World Nat String) []
        ⟨"a", AggKind.base, [], 0, none⟩ []).2 "zzz" = ctxValue [] "zzz"
    ∧ heapGet (Collect "b"
        (registerAgg (registerAgg (⟨[]⟩ : World Nat String) []
            ⟨"a", AggKind.base, [], 0, none⟩ []).1
          (registerAgg (⟨[]⟩ : World Nat String) []
            ⟨"a", AggKind.base, [], 0, none⟩ []).2
          ⟨"b", AggKind.concurrent, [], 0, none⟩ []).1
        (registerAgg (registerAgg (⟨[]⟩ : World Nat String) []
            ⟨"a", AggKind.base, [], 0, none⟩ []).1
          (registerAgg (⟨[]⟩ : World Nat String) []
            ⟨"a", AggKind.base, [], 0, none⟩ []).2
          ⟨"b", AggKind.concurrent, [], 0, none⟩ []).2
        7 []).1 0 = some ⟨"a", AggKind.base, [], 0, none⟩ := by
  have h := C8_register_copy_on_write (⟨[]⟩ : World Nat String) [] []
    ⟨"a", AggKind.base, [], 0, none⟩ ⟨"b", AggKind.concurrent, [], 0, none⟩
  exact ⟨h.2.1 "zzz" (by decide), h.2.2.2.2.2 7⟩

/-- C10: BeginWait (WaitFunc) with no binding at the computed handle, or
with a bound collector that does not implement the outstanding-work
coordinator interface (e.g. a Sequential collector), returns the input
context unchanged with a no-op completion function, touching no counter
and signalling no error; with a concurrent-capable collector bound, it
increments that collector's wait-group counter and returns a completion
function whose invocation decrements it back. -/
theorem C10_waitfunc_optin {V Ty : Type} (w : World V Ty) (ctx : Ctx)
    (keys : List String) :
    (ctxValue ctx (buildContextKey keys) = none →
      WaitFunc w ctx keys = (w, ctx, CompletionFn.noop)
      ∧ runCompletionFn w CompletionFn.noop = w)
    ∧ (∀ a obj, ctxValue ctx (buildContextKey keys) = some a →
      heapGet w a = some obj → isIConcurrentAggregator obj.kind = false →
      WaitFunc w ctx keys = (w, ctx, CompletionFn.noop)
      ∧ runCompletionFn w CompletionFn.noop = w)
    ∧ (∀ a obj, ctxValue ctx (buildContextKey keys) = some a →
      heapGet w a = some obj → isIConcurrentAggregator obj.kind = true →
      WaitFunc w ctx keys
        = (heapSet w a { obj with wc := obj.wc + 1 }, ctx, CompletionFn.done a)
      ∧ heapGet (runCompletionFn (heapSet w a { obj with wc := obj.wc + 1 })
          (CompletionFn.done a)) a = some obj) := by
  refine ⟨?_, ?_, ?_⟩
  · intro h1
    exact ⟨by simp [WaitFunc, h1], rfl⟩
  · intro a obj h1 h2 h3
    exact ⟨by simp [WaitFunc, h1, h2, h3], rfl⟩
  · intro a obj h1 h2 h3
    refine ⟨by simp [WaitFunc, h1, h2, h3], ?_⟩
    have hset : heapGet (heapSet w a { obj with wc := obj.wc + 1 }) a
        = some { obj with wc := obj.wc + 1 } := heapGet_set_self _ h2
    have heta : ({ obj with wc := obj.wc + 1 - 1 } : AggObj V Ty) = obj := by
      rw [Nat.add_sub_cancel]
    have hrun : runCompletionFn (heapSet w a { obj with wc := obj.wc + 1 })
        (CompletionFn.done a)
        = heapSet (heapSet w a { obj with wc := obj.wc + 1 }) a obj := by
      simp [runCompletionFn, hset, heta]
    rw [hrun]
    exact heapGet_set_self obj hset

theorem C10_witness :
    (WaitFunc (⟨[]⟩ : World Nat String) [] [] = (⟨[]⟩, [], CompletionFn.noop))
    ∧ (WaitFunc (⟨[⟨"int", AggKind.base, [], 0, none⟩]⟩ : World Nat String)
        [(buildContextKey [], 0)] []
        = (⟨[⟨"int", AggKind.base, [], 0, none⟩]⟩,
            [(buildContextKey [], 0)], CompletionFn.noop))
    ∧ (WaitFunc (⟨[⟨"int", AggKind.concurrent, [], 3, none⟩]⟩ : World Nat String)
        [(buildContextKey [], 0)] []
        = (heapSet (⟨[⟨"int", AggKind.concurrent, [], 3, none⟩]⟩ : World Nat String)
            0 ⟨"int", AggKind.concurrent, [], 4, none⟩,
            [(buildContextKey [], 0)], CompletionFn.done 0)) := by
  have h1 := (C10_waitfunc_optin (⟨[]⟩ : World Nat String) [] []).1 rfl
  have h2 := (C10_waitfunc_optin
    (⟨[⟨"int", AggKind.base, [], 0, none⟩]⟩ : World Nat String)
    [(buildContextKey [], 0)] []).2.1 0 ⟨"int", AggKind.base, [], 0, none⟩
    rfl rfl rfl
  have h3 := (C10_waitfunc_optin
    (⟨[⟨"int", AggKind.concurrent, [], 3, none⟩]⟩ : World Nat String)
    [(buildContextKey [], 0)] []).2.2 0 ⟨"int", AggKind.concurrent, [], 3, none⟩
    rfl rfl rfl
  exact ⟨h1.1, h2.1, h3.1⟩

end aggregator
